import Mathlib

/-!
Shallow embedding of the fireconf reconciliation engine
(repository m-mizutani/fireconf), covering:

* the domain model (`internal/model/index.go`, `internal/model/ttl.go`,
  `pkg/domain/model/config.go`),
* the diff engine (`internal/usecase/diff.go`: `DiffIndexes`, `DiffTTL`,
  `getIndexKey`, `convertModelToFirestoreIndex`),
* the sync orchestrator (`internal/usecase/sync.go`: `syncIndexes`,
  `syncTTL`, `ensureCollectionExists`, `waitForIndexesReady`),
* configuration validation (`internal/usecase/validate.go`), and
* the importer's TTL resolution (`internal/usecase/import.go`: `importTTL`).

Go maps are modelled as association lists with overwrite-on-insert;
Go map iteration order is unspecified, so where the source ranges over a
map the model uses the key-insertion order (all properties proved below
are insensitive to that order).  Machine integers are modelled as `Int`.
Fallible calls are modelled with `Except`/`Option`.
-/

namespace Fireconf

/-- Embeds `interfaces.FirestoreVectorConfig` (pkg/domain/interfaces/firestore.go). -/
structure FirestoreVectorConfig where
  dimension : Int
deriving DecidableEq, Repr

/-- Embeds `interfaces.FirestoreIndexField` (pkg/domain/interfaces/firestore.go). -/
structure FirestoreIndexField where
  fieldPath : String
  order : String := ""
  arrayConfig : String := ""
  vectorConfig : Option FirestoreVectorConfig := none
deriving DecidableEq, Repr

/-- Embeds `interfaces.FirestoreIndex` (pkg/domain/interfaces/firestore.go). -/
structure FirestoreIndex where
  name : String := ""
  fields : List FirestoreIndexField
  queryScope : String
  state : String := ""
deriving DecidableEq, Repr

/-- Embeds `interfaces.FirestoreTTL` (pkg/domain/interfaces/firestore.go). -/
structure FirestoreTTL where
  fieldPath : String
  state : String
deriving DecidableEq, Repr

/-- Embeds `model.VectorConfig` (internal/model/index.go). -/
structure VectorConfig where
  dimension : Int
deriving DecidableEq, Repr

/-- Embeds `model.IndexField` (internal/model/index.go). -/
structure IndexField where
  name : String
  order : String := ""
  arrayConfig : String := ""
  vectorConfig : Option VectorConfig := none
deriving DecidableEq, Repr

/-- Embeds `model.Index` (internal/model/index.go). -/
structure Index where
  fields : List IndexField
  queryScope : String := ""
deriving DecidableEq, Repr

/-- Embeds `model.TTL` (internal/model/ttl.go). -/
structure TTL where
  field : String
deriving DecidableEq, Repr

/-- Embeds `model.Collection` (pkg/domain/model/config.go). -/
structure Collection where
  name : String
  indexes : List Index
  ttl : Option TTL := none
deriving DecidableEq, Repr

/-- Embeds `strings.ToUpper` modelled char-wise (kernel-computable form of
`String.toUpper`). -/
def toUpperString (s : String) : String := ⟨s.data.map Char.toUpper⟩

/-- Embeds `(*Index).GetQueryScope` (internal/model/index.go): empty scope
defaults to COLLECTION, otherwise the scope is upper-cased. -/
def Index.GetQueryScope (i : Index) : String :=
  if i.queryScope = "" then "COLLECTION" else toUpperString i.queryScope

/-- Embeds `convertModelToFirestoreIndex` (internal/usecase/diff.go): vector
config takes priority, then order, then array config. -/
def convertModelToFirestoreIndex (idx : Index) : FirestoreIndex :=
  { name := ""
    queryScope := idx.GetQueryScope
    state := ""
    fields := idx.fields.map (fun field =>
      match field.vectorConfig with
      | some v =>
          { fieldPath := field.name, vectorConfig := some ⟨v.dimension⟩ }
      | none =>
          if field.order ≠ "" then
            { fieldPath := field.name, order := field.order }
          else if field.arrayConfig ≠ "" then
            { fieldPath := field.name, arrayConfig := field.arrayConfig }
          else
            { fieldPath := field.name }) }

/-- Lexicographic comparison on character lists (the order `sort.Strings`
uses, stated in a kernel-computable form). -/
def charsLt : List Char → List Char → Bool
  | [], [] => false
  | [], _ :: _ => true
  | _ :: _, [] => false
  | a :: as, b :: bs =>
      if a.toNat < b.toNat then true
      else if b.toNat < a.toNat then false
      else charsLt as bs

/-- Lexicographic order on strings, as used by Go's `sort.Strings`. -/
def strLt (a b : String) : Bool := charsLt a.data b.data

/-- Insertion into a sorted list of strings; used to model Go's
`sort.Strings` (any correct sort of strings produces the same list). -/
def insertSorted (s : String) : List String → List String
  | [] => [s]
  | t :: ts => if strLt t s then t :: insertSorted s ts else s :: t :: ts

/-- Model of `sort.Strings` (insertion sort; strings have no distinct
equal elements, so the result is the unique sorted permutation). -/
def sortStrings : List String → List String
  | [] => []
  | s :: ss => insertSorted s (sortStrings ss)

/-- The per-field key fragment built inside `getIndexKey`
(internal/usecase/diff.go lines 77-84): order, then array config, then
vector config; a field with none of the three yields the zero value. -/
def fieldKeyOf (field : FirestoreIndexField) : String :=
  if field.order ≠ "" then
    field.fieldPath ++ ":" ++ field.order
  else if field.arrayConfig ≠ "" then
    field.fieldPath ++ ":ARRAY_" ++ field.arrayConfig
  else
    match field.vectorConfig with
    | some v => field.fieldPath ++ ":VECTOR_" ++ toString v.dimension
    | none => ""

/-- Embeds `getIndexKey` (internal/usecase/diff.go lines 68-93): the query
scope followed by the per-field fragments, which the source sorts with
`sort.Strings` before joining with `"|"`. -/
def getIndexKey (idx : FirestoreIndex) : String :=
  let fieldKeys := idx.fields.map fieldKeyOf
  String.intercalate "|" (idx.queryScope :: sortStrings fieldKeys)

/-- Association-list lookup, modelling Go map indexing `m[key]`. -/
def lookupAssoc {α : Type} : List (String × α) → String → Option α
  | [], _ => none
  | (k, v) :: rest, key => if k = key then some v else lookupAssoc rest key

/-- Association-list insert-or-overwrite, modelling Go map assignment
`m[key] = v`. -/
def upsert {α : Type} : List (String × α) → String → α → List (String × α)
  | [], key, v => [(key, v)]
  | (k, w) :: rest, key, v =>
      if k = key then (k, v) :: rest else (k, w) :: upsert rest key v

/-- A Go map built by ranging over a list and storing each element
under its key (`m[keyOf(x)] = x`), as `DiffIndexes` does for both
sides. -/
def buildKeyMap {α : Type} (keyOf : α → String) (xs : List α) :
    List (String × α) :=
  xs.foldl (fun m x => upsert m (keyOf x) x) []

/-- The `desiredMap` built by `DiffIndexes` (internal/usecase/diff.go
lines 19-22): each desired index is stored under its key. -/
def buildDesiredMap (desired : List Index) : List (String × Index) :=
  buildKeyMap (fun idx => getIndexKey (convertModelToFirestoreIndex idx)) desired

/-- The `existingMap` built by `DiffIndexes` (internal/usecase/diff.go
lines 25-27). -/
def buildExistingMap (existing : List FirestoreIndex) :
    List (String × FirestoreIndex) :=
  buildKeyMap getIndexKey existing

/-- Embeds `DiffIndexes` (internal/usecase/diff.go lines 13-42): build a
key-to-entry map for each side; existing entries whose key is absent
from the desired map become deletions (in list order, as in the source
loop); desired map entries whose key is absent from the existing map
become creations (in map order; Go map iteration order is unspecified,
the model uses key-insertion order). -/
def DiffIndexes (desired : List Index) (existing : List FirestoreIndex) :
    List FirestoreIndex × List FirestoreIndex :=
  let desiredMap := buildDesiredMap desired
  let existingMap := buildExistingMap existing
  let toDelete := existing.filter
    (fun idx => (lookupAssoc desiredMap (getIndexKey idx)).isNone)
  let toCreate := (desiredMap.filter
      (fun kv => (lookupAssoc existingMap kv.1).isNone)).map
    (fun kv => convertModelToFirestoreIndex kv.2)
  (toCreate, toDelete)

/-- Embeds `DiffTTL` (internal/usecase/diff.go lines 45-65). -/
def DiffTTL (desired : Option TTL) (existing : Option FirestoreTTL) :
    Bool × String :=
  match desired with
  | none =>
      match existing with
      | some e =>
          if e.state = "ACTIVE" ∨ e.state = "CREATING" then (true, "disable")
          else (false, "")
      | none => (false, "")
  | some d =>
      match existing with
      | none => (true, "enable")
      | some e =>
          if e.state ≠ "ACTIVE" ∧ e.state ≠ "CREATING" then (true, "enable")
          else if e.fieldPath ≠ d.field then (true, "change")
          else (false, "")

/-- The remote index list after every operation of a computed diff has
been faithfully applied: each entry listed for deletion is removed and
each index listed for creation is present.  `assign` models the remote
service attaching an identity and lifecycle state to a created index. -/
def applyDiff (existing : List FirestoreIndex)
    (diff : List FirestoreIndex × List FirestoreIndex)
    (assign : FirestoreIndex → FirestoreIndex) : List FirestoreIndex :=
  existing.filter (fun e => decide (e ∉ diff.2)) ++ diff.1.map assign

/-- Outcome of one pass of the `waitForIndexesReady` polling body
(internal/usecase/sync.go lines 454-480). -/
inductive WaitStatus where
  | ready
  | failed (indexName : String)
  | waiting
deriving DecidableEq, Repr

/-- The key set `desiredKeys` of `waitForIndexesReady` (sync.go lines
433-436): a Go map of keys, modelled as the deduplicated key list in
first-occurrence order (map iteration order is unspecified in Go). -/
def dedupKeys (keys : List String) : List String :=
  keys.foldl (fun acc k => if k ∈ acc then acc else acc ++ [k]) []

/-- The loop over `desiredKeys` in `waitForIndexesReady` (sync.go lines
459-476): a missing key or a non-READY, non-ERROR state clears
`allReady`; an ERROR state returns a failure naming the index at once;
otherwise the pass reports ready or not-ready. -/
def checkKeys (existingByKey : List (String × FirestoreIndex)) :
    List String → Bool → WaitStatus
  | [], allReady => if allReady then .ready else .waiting
  | k :: rest, allReady =>
      match lookupAssoc existingByKey k with
      | none => checkKeys existingByKey rest false
      | some idx =>
          if idx.state = "READY" then checkKeys existingByKey rest allReady
          else if idx.state = "ERROR" then .failed idx.name
          else checkKeys existingByKey rest false

/-- One polling round of `waitForIndexesReady`: index the freshly listed
indexes by key and scan the desired key set. -/
def checkIndexesOnce (desired : List FirestoreIndex)
    (existing : List FirestoreIndex) : WaitStatus :=
  checkKeys (buildExistingMap existing) (dedupKeys (desired.map getIndexKey)) true

/-- Result of the whole wait: converged, terminal index failure, or the
supplied observation budget ran out (the source loops with backoff
until one of the first two happens or the context is cancelled). -/
inductive WaitResult where
  | ok
  | err (indexName : String)
  | exhausted
deriving DecidableEq, Repr

/-- The polling loop of `waitForIndexesReady` (sync.go lines 443-499)
over a list of successive `ListIndexes` responses. -/
def waitRounds (desired : List FirestoreIndex) :
    List (List FirestoreIndex) → WaitResult
  | [] => .exhausted
  | obs :: rest =>
      match checkIndexesOnce desired obs with
      | .failed n => .err n
      | .ready => .ok
      | .waiting => waitRounds desired rest

/-- Embeds `waitForIndexesReady` (sync.go lines 427-500) including the early
return for async mode, dry-run mode, or an empty desired set. -/
def waitForIndexesReady (async dryRun : Bool) (desired : List FirestoreIndex)
    (rounds : List (List FirestoreIndex)) : WaitResult :=
  if async ∨ dryRun ∨ desired.isEmpty then .ok
  else waitRounds desired rounds

/-- A remote call issued through the `FirestoreClient` interface
(pkg/domain/interfaces/firestore.go). -/
inductive Call where
  | listIndexes (collection : String)
  | createIndex (collection : String) (index : FirestoreIndex)
  | deleteIndex (indexName : String)
  | getTTLPolicy (collection field : String)
  | enableTTLPolicy (collection field : String)
  | disableTTLPolicy (collection : String)
  | collectionExists (collection : String)
  | createCollection (collection : String)
  | waitForOperation
deriving DecidableEq, Repr

/-- The mutating calls plus the existence check. -/
def Call.isMutatingOrExists : Call → Bool
  | .createIndex _ _ => true
  | .deleteIndex _ => true
  | .enableTTLPolicy _ _ => true
  | .disableTTLPolicy _ => true
  | .collectionExists _ => true
  | .createCollection _ => true
  | _ => false

/-- Fixed responses of the modelled remote client for one collection's
reconciliation (all calls succeed; `returnsOperation` says whether the
mutating calls hand back a non-nil operation handle). -/
structure ClientModel where
  listResult : List FirestoreIndex
  ttlResult : Option FirestoreTTL
  existsResult : Bool
  returnsOperation : Bool
  pollRounds : List (List FirestoreIndex)
deriving Repr

/-- The `WaitForOperation` call made after a mutating call when the
caller is synchronous and the operation handle is non-nil. -/
def opWaitCalls (async : Bool) (client : ClientModel) : List Call :=
  if ¬ async ∧ client.returnsOperation then [.waitForOperation] else []

/-- Embeds `ensureCollectionExists` (internal/usecase/sync.go lines 531-554):
dry-run returns before any call; otherwise the existence check runs and
a missing collection is created. -/
def ensureCollectionExists (dryRun : Bool) (client : ClientModel)
    (collectionName : String) : List Call :=
  if dryRun then []
  else if client.existsResult then [.collectionExists collectionName]
  else [.collectionExists collectionName, .createCollection collectionName]

/-- The polling loop of `waitForIndexesReady` together with the
`ListIndexes` calls it issues (one per round consumed). -/
def waitRoundsCalls (collectionName : String) (desired : List FirestoreIndex) :
    List (List FirestoreIndex) → List Call × WaitResult
  | [] => ([], .exhausted)
  | obs :: rest =>
      match checkIndexesOnce desired obs with
      | .failed n => ([.listIndexes collectionName], .err n)
      | .ready => ([.listIndexes collectionName], .ok)
      | .waiting =>
          let t := waitRoundsCalls collectionName desired rest
          (.listIndexes collectionName :: t.1, t.2)

/-- Embeds `waitForIndexesReady` with its call trace. -/
def waitForIndexesReadyCalls (async dryRun : Bool) (collectionName : String)
    (desired : List FirestoreIndex) (rounds : List (List FirestoreIndex)) :
    List Call × WaitResult :=
  if async ∨ dryRun ∨ desired.isEmpty then ([], .ok)
  else waitRoundsCalls collectionName desired rounds

/-- Embeds `syncIndexes` (internal/usecase/sync.go lines 103-223) as a call
trace: list existing indexes, compute the diff, delete obsolete indexes
(skipped in dry-run), create missing ones (skipped in dry-run), then
wait for readiness.  The returned diff is the one computed at line 115. -/
def syncIndexes (dryRun async : Bool) (client : ClientModel)
    (col : Collection) :
    List Call × (List FirestoreIndex × List FirestoreIndex) × WaitResult :=
  let existing := client.listResult
  let diff := DiffIndexes col.indexes existing
  let deleteCalls :=
    if dryRun then []
    else diff.2.flatMap (fun idx =>
      .deleteIndex idx.name :: opWaitCalls async client)
  let createCalls :=
    if dryRun then []
    else diff.1.flatMap (fun idx =>
      .createIndex col.name idx :: opWaitCalls async client)
  let desiredFirestoreIndexes := col.indexes.map convertModelToFirestoreIndex
  let wait := waitForIndexesReadyCalls async dryRun col.name
    desiredFirestoreIndexes client.pollRounds
  (.listIndexes col.name :: (deleteCalls ++ createCalls ++ wait.1), diff, wait.2)

/-- Embeds `syncTTL` (internal/usecase/sync.go lines 286-423) as a call trace.
With no desired TTL, dry-run returns before the disable call; with a
desired TTL the policy is read first, the TTL diff decides the action,
and dry-run returns before any mutating call. -/
def syncTTL (dryRun async : Bool) (client : ClientModel)
    (col : Collection) : List Call :=
  match col.ttl with
  | none =>
      if dryRun then []
      else .disableTTLPolicy col.name :: opWaitCalls async client
  | some t =>
      let getCall := [Call.getTTLPolicy col.name t.field]
      let d := DiffTTL (some t) client.ttlResult
      if ¬ d.1 then getCall
      else if dryRun then getCall
      else if d.2 = "enable" then
        getCall ++ (.enableTTLPolicy col.name t.field :: opWaitCalls async client)
      else if d.2 = "change" then
        getCall ++ (.disableTTLPolicy col.name :: opWaitCalls async client)
          ++ (.enableTTLPolicy col.name t.field :: opWaitCalls async client)
      else getCall

/-- Embeds `(*IndexField).Validate` (internal/model/index.go lines 51-90),
returning the field with its defaults applied (the Go method mutates
the receiver: a field with no order, array config, or vector config
defaults to ascending order). -/
def IndexField.validate (f : IndexField) : Except String IndexField :=
  if f.name = "" then .error "field name is required"
  else if f.arrayConfig ≠ "" ∧ (f.order ≠ "" ∨ f.vectorConfig.isSome) then
    .error ("field " ++ f.name ++ ": array_config cannot be combined with order or vector_config")
  else
    let f := if f.order = "" ∧ f.arrayConfig = "" ∧ f.vectorConfig.isNone then
      { f with order := "ASCENDING" } else f
    if f.order ≠ "" ∧ f.order ≠ "ASCENDING" ∧ f.order ≠ "DESCENDING" then
      .error ("invalid order for field " ++ f.name)
    else if f.arrayConfig ≠ "" ∧ f.arrayConfig ≠ "CONTAINS" then
      .error ("invalid array_config for field " ++ f.name)
    else match f.vectorConfig with
      | some v =>
          if v.dimension ≤ 0 then
            .error ("vector dimension must be positive for field " ++ f.name)
          else .ok f
      | none => .ok f

/-- Validation of a list of index fields in order, first error wins. -/
def validateFields : List IndexField → Except String (List IndexField)
  | [] => .ok []
  | f :: fs =>
      match f.validate with
      | .error e => .error e
      | .ok f' =>
          match validateFields fs with
          | .error e => .error e
          | .ok fs' => .ok (f' :: fs')

/-- Embeds `(*Index).Validate` (internal/model/index.go lines 28-48), returning
the index with defaults applied. -/
def Index.validate (i : Index) : Except String Index :=
  if i.fields.isEmpty then .error "index must have at least one field"
  else
    let scope := if i.queryScope = "" then "COLLECTION" else i.queryScope
    if scope ≠ "COLLECTION" ∧ scope ≠ "COLLECTION_GROUP" then
      .error ("invalid queryScope: " ++ i.queryScope)
    else
      match validateFields i.fields with
      | .error e => .error e
      | .ok fs => .ok { fields := fs, queryScope := scope }

/-- Validation of a list of indexes in order, first error wins. -/
def validateIndexList : List Index → Except String (List Index)
  | [] => .ok []
  | i :: is =>
      match i.validate with
      | .error e => .error e
      | .ok i' =>
          match validateIndexList is with
          | .error e => .error e
          | .ok is' => .ok (i' :: is')

/-- Embeds `(*TTL).Validate` (internal/model/ttl.go). -/
def TTL.validate (t : TTL) : Except String TTL :=
  if t.field = "" then .error "TTL field name is required" else .ok t

/-- Embeds `(*Collection).Validate` (pkg/domain/model/config.go), returning the
collection with defaults applied. -/
def Collection.validate (c : Collection) : Except String Collection :=
  if c.name = "" then .error "collection name is required"
  else
    match validateIndexList c.indexes with
    | .error e => .error e
    | .ok is =>
        match c.ttl with
        | none => .ok { c with indexes := is }
        | some t =>
            match t.validate with
            | .error e => .error e
            | .ok t' => .ok { c with indexes := is, ttl := some t' }

/-- Outcome of reconciling one collection: the full remote-call trace,
the index diff computed by `syncIndexes` (when reached), and whether
the branch succeeded. -/
structure SyncOutcome where
  trace : List Call
  diff : Option (List FirestoreIndex × List FirestoreIndex)
  result : Except String Unit
deriving Repr

/-- The per-collection body of `Sync.Execute` (internal/usecase/sync.go
lines 61-90): validate, ensure the collection exists, sync indexes,
sync TTL.  The modelled client answers every call successfully; an
exhausted polling budget is reported as an error (the source would keep
polling). -/
def syncCollection (dryRun async : Bool) (client : ClientModel)
    (col : Collection) : SyncOutcome :=
  match col.validate with
  | .error e => { trace := [], diff := none, result := .error e }
  | .ok c =>
      let ensureCalls := ensureCollectionExists dryRun client c.name
      let idx := syncIndexes dryRun async client c
      match idx.2.2 with
      | .err n =>
          { trace := ensureCalls ++ idx.1, diff := some idx.2.1
            result := .error ("index entered ERROR state: " ++ n) }
      | .exhausted =>
          { trace := ensureCalls ++ idx.1, diff := some idx.2.1
            result := .error "polling budget exhausted" }
      | .ok =>
          let ttlCalls := syncTTL dryRun async client c
          { trace := ensureCalls ++ idx.1 ++ ttlCalls, diff := some idx.2.1
            result := .ok () }

/-- Embeds `nameFieldIndex` of `validateIndexConstraints`
(internal/usecase/validate.go lines 69-79): index of the last field
named `__name__`, `-1` when absent. -/
def nameFieldIndexOf (fields : List IndexField) : Int :=
  fields.enum.foldl
    (fun acc p => if p.2.name = "__name__" then (p.1 : Int) else acc) (-1)

/-- Embeds `vectorFieldIndices` of `validateIndexConstraints`: positions of the
fields carrying a vector config, in order. -/
def vectorFieldIndicesOf (fields : List IndexField) : List Nat :=
  fields.enum.foldl
    (fun acc p => if p.2.vectorConfig.isSome then acc ++ [p.1] else acc) []

/-- Constraint 3 of `validateIndexConstraints` (validate.go lines
96-107): first vector field not sitting in the trailing block. -/
def vectorTrailingError (fields : List IndexField) : Option String :=
  let vecIdxs := vectorFieldIndicesOf fields
  let expectedStart := fields.length - vecIdxs.length
  ((vecIdxs.enum.filter (fun p => p.2 ≠ expectedStart + p.1)).head?).map
    (fun _ => "vector config field must be at the end of the index")

/-- Constraint 5 of `validateIndexConstraints` (validate.go lines
119-126): first duplicated field name, scanning left to right. -/
def duplicateFieldError : List IndexField → List String → Option String
  | [], _ => none
  | f :: fs, seen =>
      if f.name ∈ seen then some ("duplicate field name " ++ f.name)
      else duplicateFieldError fs (seen ++ [f.name])

/-- Constraint 6 of `validateIndexConstraints` (validate.go lines
128-133): first field with a non-positive vector dimension. -/
def vectorDimensionError (fields : List IndexField) : Option String :=
  ((fields.filter (fun f =>
      match f.vectorConfig with
      | some v => v.dimension ≤ 0
      | none => false)).head?).map
    (fun f => "vector dimension must be positive for field " ++ f.name)

/-- The six constraints of `validateIndexConstraints`
(internal/usecase/validate.go lines 65-136) in source order, first
violation wins; the violation message is independent of the index's
position in the collection. -/
def indexConstraintViolation (fields : List IndexField) : Option String :=
  let nameFieldIndex := nameFieldIndexOf fields
  let vectorIdxs := vectorFieldIndicesOf fields
  if nameFieldIndex ≥ 0 ∧ ¬ vectorIdxs.isEmpty then
    some "vector index must not include __name__ field (Firestore manages it internally)"
  else if nameFieldIndex ≥ 0 ∧ vectorIdxs.isEmpty ∧
      nameFieldIndex ≠ (fields.length : Int) - 1 then
    some "__name__ field must be last in non-vector index"
  else match vectorTrailingError fields with
    | some e => some e
    | none =>
        if fields.length = 0 then
          some "index must have at least one field"
        else if fields.length = 1 ∧
            (fields.head?.map (fun f => f.name)).getD "" = "__name__" then
          some "single-field index on __name__ is not necessary"
        else match duplicateFieldError fields [] with
          | some e => some e
          | none => vectorDimensionError fields

/-- Embeds `validateIndexConstraints` (internal/usecase/validate.go lines
65-136): the first violated constraint, reported with the index's
position. -/
def validateIndexConstraints (index : Index) (indexNum : Int) :
    Except String Unit :=
  match indexConstraintViolation index.fields with
  | some e => .error ("index[" ++ toString indexNum ++ "]: " ++ e)
  | none => .ok ()

/-- Embeds `validateTTLConstraints` (internal/usecase/validate.go lines
139-154). -/
def validateTTLConstraints (ttl : TTL) : Except String Unit :=
  if ttl.field = "" then .error "TTL field name cannot be empty"
  else if ttl.field = "__name__" then
    .error ("TTL field " ++ ttl.field ++ " cannot be a reserved field")
  else .ok ()

/-- The index loop of `validateFirestoreConstraints`
(internal/usecase/validate.go lines 48-53), carrying the index number. -/
def validateIndexesLoop : List Index → Int → Except String Unit
  | [], _ => .ok ()
  | i :: is, n =>
      match validateIndexConstraints i n with
      | .error e => .error e
      | .ok _ => validateIndexesLoop is (n + 1)

/-- Embeds `validateFirestoreConstraints` (internal/usecase/validate.go lines
47-62). -/
def validateFirestoreConstraints (collection : Collection) :
    Except String Unit :=
  match validateIndexesLoop collection.indexes 0 with
  | .error e => .error e
  | .ok _ =>
      match collection.ttl with
      | some t => validateTTLConstraints t
      | none => .ok ()

/-- Responses of the modelled client for the importer's TTL resolution
(`FindTTLField` and `GetTTLPolicy`). -/
structure ImportTTLClient where
  findTTLFieldResult : Except String String
  getTTLPolicyResult : Except String (Option FirestoreTTL)
deriving Repr

/-- Embeds `importTTL` (internal/usecase/import.go lines 151-194): a
`FindTTLField` failure is logged and swallowed (no TTL, no error); an
empty field name means no TTL; a `GetTTLPolicy` failure is wrapped and
returned as an error; otherwise the policy is reported iff it is
ACTIVE or CREATING.  (When `GetTTLPolicy` returns neither policy nor
error the source logs through a nil pointer; the log is not modelled.) -/
def importTTL (client : ImportTTLClient) : Except String (Option TTL) :=
  match client.findTTLFieldResult with
  | .error _ => .ok none
  | .ok ttlField =>
      if ttlField = "" then .ok none
      else
        match client.getTTLPolicyResult with
        | .error e => .error ("failed to get TTL policy: " ++ e)
        | .ok ttl =>
            match ttl with
            | some t =>
                if t.state = "ACTIVE" ∨ t.state = "CREATING" then
                  .ok (some { field := ttlField })
                else .ok none
            | none => .ok none

/-- The TTL step of `Import.Execute` (internal/usecase/import.go lines
62-67): an `importTTL` error is wrapped and aborts that collection's
whole import. -/
def importCollectionTTL (client : ImportTTLClient) :
    Except String (Option TTL) :=
  match importTTL client with
  | .error e => .error ("failed to import TTL: " ++ e)
  | .ok ttl => .ok ttl

/-! Concrete instances used below (taken from the repository's own test
data in internal/usecase/diff_test.go). -/

/-- Desired index on (email ASC, createdAt DESC). -/
def desiredEmailCreatedAt : Index :=
  { fields := [{ name := "email", order := "ASCENDING" },
               { name := "createdAt", order := "DESCENDING" }]
    queryScope := "COLLECTION" }

/-- Observed index with the same two fields in reversed order. -/
def existingCreatedAtEmail : FirestoreIndex :=
  { name := "projects/test/databases/default/collectionGroups/users/indexes/idx1"
    fields := [{ fieldPath := "createdAt", order := "DESCENDING" },
               { fieldPath := "email", order := "ASCENDING" }]
    queryScope := "COLLECTION" }

/-- Desired index on (email ASC, score DESC). -/
def desiredEmailScore : Index :=
  { fields := [{ name := "email", order := "ASCENDING" },
               { name := "score", order := "DESCENDING" }]
    queryScope := "COLLECTION" }

/-- The same index as observed by the remote service, with the reserved
document-identity field appended. -/
def existingEmailScoreName : FirestoreIndex :=
  { name := "projects/test/databases/test/collectionGroups/users/indexes/idx1"
    fields := [{ fieldPath := "email", order := "ASCENDING" },
               { fieldPath := "score", order := "DESCENDING" },
               { fieldPath := "__name__", order := "ASCENDING" }]
    queryScope := "COLLECTION"
    state := "READY" }

/-- Desired vector index with single-collection scope. -/
def desiredVectorCollection : Index :=
  { fields := [{ name := "title", order := "ASCENDING" },
               { name := "embedding", vectorConfig := some ⟨768⟩ }]
    queryScope := "COLLECTION" }

/-- The same vector index as reported by the remote service, which
substitutes collection-group scope. -/
def existingVectorCollectionGroup : FirestoreIndex :=
  { name := "projects/test/databases/test/collectionGroups/docs/indexes/idx1"
    fields := [{ fieldPath := "title", order := "ASCENDING" },
               { fieldPath := "embedding", vectorConfig := some ⟨768⟩ }]
    queryScope := "COLLECTION_GROUP"
    state := "READY" }

/-- Desired index on a single email field. -/
def desiredEmailOnly : Index :=
  { fields := [{ name := "email", order := "ASCENDING" }]
    queryScope := "COLLECTION" }

/-- The converted form of `desiredEmailOnly`, as the waiter's desired set
holds it. -/
def desiredEmailFirestore : FirestoreIndex :=
  convertModelToFirestoreIndex desiredEmailOnly

/-- The matching observed index in NEEDS_REPAIR state. -/
def existingEmailNeedsRepair : FirestoreIndex :=
  { name := "projects/test/databases/default/collectionGroups/users/indexes/idx1"
    fields := [{ fieldPath := "email", order := "ASCENDING" }]
    queryScope := "COLLECTION"
    state := "NEEDS_REPAIR" }

/-- The matching observed index in ERROR state. -/
def existingEmailError : FirestoreIndex :=
  { existingEmailNeedsRepair with state := "ERROR" }

/-- The matching observed index in READY state. -/
def existingEmailReady : FirestoreIndex :=
  { existingEmailNeedsRepair with state := "READY" }

/-- A client whose single listed index is obsolete and whose TTL policy
is already active on `expireAt`. -/
def sampleClient : ClientModel :=
  { listResult := [existingCreatedAtEmail]
    ttlResult := some { fieldPath := "expireAt", state := "ACTIVE" }
    existsResult := false
    returnsOperation := true
    pollRounds := [] }

/-- A collection desiring one index and a TTL on `expireAt`. -/
def sampleCollection : Collection :=
  { name := "users"
    indexes := [desiredEmailOnly]
    ttl := some { field := "expireAt" } }

/-- Import client: the TTL field lookup succeeds but fetching the full
policy fails. -/
def ttlClientGetFails : ImportTTLClient :=
  { findTTLFieldResult := .ok "expireAt"
    getTTLPolicyResult := .error "permission denied" }

/-- Import client: the TTL field lookup itself fails. -/
def ttlClientFindFails : ImportTTLClient :=
  { findTTLFieldResult := .error "permission denied"
    getTTLPolicyResult := .error "permission denied" }

/-- An index combining the reserved document-identity field with a
vector field. -/
def indexNameWithVector : Index :=
  { fields := [{ name := "__name__", order := "ASCENDING" },
               { name := "embedding", vectorConfig := some ⟨768⟩ }]
    queryScope := "COLLECTION" }

/-- A non-vector index in which `__name__` is not the last field. -/
def indexNameNotLast : Index :=
  { fields := [{ name := "__name__", order := "ASCENDING" },
               { name := "email", order := "ASCENDING" }]
    queryScope := "COLLECTION" }

/-! Association-list lemmas for the Go-map model. -/

theorem lookupAssoc_upsert {α : Type} (m : List (String × α)) (k key : String)
    (v : α) :
    lookupAssoc (upsert m k v) key =
      if k = key then some v else lookupAssoc m key := by
  induction m with
  | nil => simp [upsert, lookupAssoc]
  | cons kv rest ih =>
      obtain ⟨k', w⟩ := kv
      by_cases h : k' = k
      · subst h
        by_cases hk : k' = key <;> simp [upsert, lookupAssoc, hk]
      · by_cases hk : k' = key
        · subst hk
          have hkk : ¬ k = k' := fun e => h e.symm
          simp [upsert, lookupAssoc, h, hkk]
        · simp [upsert, lookupAssoc, h, hk, ih]

theorem mem_upsert {α : Type} (m : List (String × α)) (k : String) (v : α)
    (kv : String × α) (h : kv ∈ upsert m k v) : kv ∈ m ∨ kv = (k, v) := by
  induction m with
  | nil =>
      simp only [upsert, List.mem_singleton] at h
      exact Or.inr h
  | cons hd rest ih =>
      obtain ⟨k', w⟩ := hd
      by_cases hk : k' = k
      · subst hk
        simp only [upsert, eq_self_iff_true, ite_true, List.mem_cons] at h
        rcases h with h1 | h1
        · right; exact h1
        · left; exact List.mem_cons_of_mem _ h1
      · simp only [upsert, if_neg hk, List.mem_cons] at h
        rcases h with h1 | h1
        · left; exact h1 ▸ List.mem_cons_self _ _
        · rcases ih h1 with h' | h'
          · left; exact List.mem_cons_of_mem _ h'
          · right; exact h'

theorem lookupAssoc_mem {α : Type} (m : List (String × α)) (k : String) (v : α)
    (h : lookupAssoc m k = some v) : (k, v) ∈ m := by
  induction m with
  | nil => simp [lookupAssoc] at h
  | cons hd rest ih =>
      obtain ⟨k', w⟩ := hd
      by_cases hk : k' = k
      · subst hk
        simp [lookupAssoc] at h
        subst h
        exact List.mem_cons_self _ _
      · simp only [lookupAssoc, if_neg hk] at h
        exact List.mem_cons_of_mem _ (ih h)

theorem lookup_foldl_upsert_isSome {α : Type} (keyOf : α → String)
    (xs : List α) (k : String) :
    ∀ acc : List (String × α),
      (lookupAssoc (xs.foldl (fun m x => upsert m (keyOf x) x) acc) k).isSome
        ↔ (lookupAssoc acc k).isSome ∨ k ∈ xs.map keyOf := by
  induction xs with
  | nil => intro acc; simp
  | cons x xs ih =>
      intro acc
      simp only [List.foldl_cons, List.map_cons, List.mem_cons]
      rw [ih, lookupAssoc_upsert]
      by_cases h : keyOf x = k
      · simp [h]
      · have h' : ¬ k = keyOf x := fun e => h e.symm
        simp [h, h']

theorem lookup_buildKeyMap_isSome {α : Type} (keyOf : α → String)
    (xs : List α) (k : String) :
    (lookupAssoc (buildKeyMap keyOf xs) k).isSome ↔ k ∈ xs.map keyOf := by
  have := lookup_foldl_upsert_isSome keyOf xs k []
  simpa [buildKeyMap, lookupAssoc] using this

theorem mem_foldl_upsert {α : Type} (keyOf : α → String) (xs : List α) :
    ∀ (acc : List (String × α)) (kv : String × α),
      kv ∈ xs.foldl (fun m x => upsert m (keyOf x) x) acc →
      kv ∈ acc ∨ (kv.2 ∈ xs ∧ kv.1 = keyOf kv.2) := by
  induction xs with
  | nil => intro acc kv h; exact Or.inl h
  | cons x xs ih =>
      intro acc kv h
      simp only [List.foldl_cons] at h
      rcases ih (upsert acc (keyOf x) x) kv h with h' | h'
      · rcases mem_upsert acc (keyOf x) x kv h' with h'' | h''
        · exact Or.inl h''
        · subst h''
          exact Or.inr ⟨List.mem_cons_self _ _, rfl⟩
      · exact Or.inr ⟨List.mem_cons_of_mem _ h'.1, h'.2⟩

theorem mem_buildKeyMap {α : Type} (keyOf : α → String) (xs : List α)
    (kv : String × α) (h : kv ∈ buildKeyMap keyOf xs) :
    kv.2 ∈ xs ∧ kv.1 = keyOf kv.2 := by
  rcases mem_foldl_upsert keyOf xs [] kv h with h' | h'
  · simp at h'
  · exact h'

/-! Characterization of `DiffIndexes` in terms of `getIndexKey`. -/

/-- The key of a desired index, as used on the desired side of the diff. -/
def desiredKey (d : Index) : String :=
  getIndexKey (convertModelToFirestoreIndex d)

theorem lookup_buildDesiredMap_isSome (desired : List Index) (k : String) :
    (lookupAssoc (buildDesiredMap desired) k).isSome ↔
      k ∈ desired.map desiredKey := by
  rw [buildDesiredMap, lookup_buildKeyMap_isSome]
  exact Iff.rfl

theorem lookup_buildExistingMap_isSome (existing : List FirestoreIndex)
    (k : String) :
    (lookupAssoc (buildExistingMap existing) k).isSome ↔
      k ∈ existing.map getIndexKey := by
  rw [buildExistingMap, lookup_buildKeyMap_isSome]

theorem lookup_buildDesiredMap_isNone (desired : List Index) (k : String) :
    (lookupAssoc (buildDesiredMap desired) k).isNone = true ↔
      k ∉ desired.map desiredKey := by
  rw [← lookup_buildDesiredMap_isSome desired k]
  cases lookupAssoc (buildDesiredMap desired) k <;> simp

theorem lookup_buildExistingMap_isNone (existing : List FirestoreIndex)
    (k : String) :
    (lookupAssoc (buildExistingMap existing) k).isNone = true ↔
      k ∉ existing.map getIndexKey := by
  rw [← lookup_buildExistingMap_isSome existing k]
  cases lookupAssoc (buildExistingMap existing) k <;> simp

/-- Definitional shape of the delete side of `DiffIndexes`. -/
theorem diffIndexes_snd (desired : List Index)
    (existing : List FirestoreIndex) :
    (DiffIndexes desired existing).2 = existing.filter
      (fun idx => (lookupAssoc (buildDesiredMap desired) (getIndexKey idx)).isNone) :=
  rfl

/-- Definitional shape of the create side of `DiffIndexes`. -/
theorem diffIndexes_fst (desired : List Index)
    (existing : List FirestoreIndex) :
    (DiffIndexes desired existing).1 = ((buildDesiredMap desired).filter
        (fun kv => (lookupAssoc (buildExistingMap existing) kv.1).isNone)).map
      (fun kv => convertModelToFirestoreIndex kv.2) :=
  rfl

theorem diff_toDelete_mem (desired : List Index)
    (existing : List FirestoreIndex) (e : FirestoreIndex) :
    e ∈ (DiffIndexes desired existing).2 ↔
      e ∈ existing ∧ getIndexKey e ∉ desired.map desiredKey := by
  rw [diffIndexes_snd, List.mem_filter]
  exact and_congr_right fun _ => lookup_buildDesiredMap_isNone desired (getIndexKey e)

theorem diff_toCreate_mem (desired : List Index)
    (existing : List FirestoreIndex) (c : FirestoreIndex)
    (h : c ∈ (DiffIndexes desired existing).1) :
    (∃ d ∈ desired, c = convertModelToFirestoreIndex d) ∧
      getIndexKey c ∉ existing.map getIndexKey := by
  rw [diffIndexes_fst] at h
  obtain ⟨kv, hkv, hc⟩ := List.mem_map.mp h
  obtain ⟨hmem, hnone⟩ := List.mem_filter.mp hkv
  obtain ⟨hv, hkey⟩ := mem_buildKeyMap _ _ kv hmem
  refine ⟨⟨kv.2, hv, hc.symm⟩, ?_⟩
  have hck : getIndexKey c = kv.1 := by rw [← hc, ← hkey]
  rw [hck]
  exact (lookup_buildExistingMap_isNone existing kv.1).mp hnone

theorem diff_toCreate_complete (desired : List Index)
    (existing : List FirestoreIndex) (d : Index) (hd : d ∈ desired)
    (hk : desiredKey d ∉ existing.map getIndexKey) :
    ∃ c ∈ (DiffIndexes desired existing).1, getIndexKey c = desiredKey d := by
  have hsome : (lookupAssoc (buildDesiredMap desired) (desiredKey d)).isSome :=
    (lookup_buildDesiredMap_isSome desired (desiredKey d)).mpr
      (List.mem_map.mpr ⟨d, hd, rfl⟩)
  obtain ⟨v, hv⟩ := Option.isSome_iff_exists.mp hsome
  have hmem : (desiredKey d, v) ∈ buildDesiredMap desired :=
    lookupAssoc_mem _ _ _ hv
  obtain ⟨hvd, hkey⟩ := mem_buildKeyMap _ _ _ hmem
  refine ⟨convertModelToFirestoreIndex v, ?_, ?_⟩
  · rw [diffIndexes_fst]
    refine List.mem_map.mpr ⟨(desiredKey d, v), List.mem_filter.mpr ⟨hmem, ?_⟩, rfl⟩
    exact (lookup_buildExistingMap_isNone existing (desiredKey d)).mpr hk
  · exact hkey.symm

/-! Claim theorems for the diff engine. -/

/-- C1: for every pair (desired, observed) of index lists, `DiffIndexes`
returns as toDelete exactly the observed indexes whose key is absent
from the desired key set, as toCreate (converted) desired indexes whose
key is absent from the observed key set — exactly one per such key —
and an index whose key occurs on both sides appears in neither list. -/
theorem C1_diffIndexes_exact (desired : List Index)
    (existing : List FirestoreIndex) :
    (∀ e, e ∈ (DiffIndexes desired existing).2 ↔
        e ∈ existing ∧ getIndexKey e ∉ desired.map desiredKey) ∧
    (∀ c ∈ (DiffIndexes desired existing).1,
        (∃ d ∈ desired, c = convertModelToFirestoreIndex d) ∧
          getIndexKey c ∉ existing.map getIndexKey) ∧
    (∀ d ∈ desired, desiredKey d ∉ existing.map getIndexKey →
        ∃ c ∈ (DiffIndexes desired existing).1, getIndexKey c = desiredKey d) ∧
    (∀ x : FirestoreIndex, getIndexKey x ∈ desired.map desiredKey →
        getIndexKey x ∈ existing.map getIndexKey →
        (∀ c ∈ (DiffIndexes desired existing).1, getIndexKey c ≠ getIndexKey x) ∧
        (∀ e ∈ (DiffIndexes desired existing).2, getIndexKey e ≠ getIndexKey x)) := by
  refine ⟨diff_toDelete_mem desired existing, ?_, ?_, ?_⟩
  · exact diff_toCreate_mem desired existing
  · exact diff_toCreate_complete desired existing
  · intro x hxd hxe
    constructor
    · intro c hc hcx
      have := (diff_toCreate_mem desired existing c hc).2
      rw [hcx] at this
      exact this hxe
    · intro e he hex
      have := ((diff_toDelete_mem desired existing e).mp he).2
      rw [hex] at this
      exact this hxd

/-- C1 witness: with desired = one index on (email ASC, createdAt DESC)
and observed = the same fields reversed... the characterization places
the observed index in toDelete. -/
theorem C1_diffIndexes_exact_witness :
    existingEmailScoreName ∈
      (DiffIndexes [desiredEmailCreatedAt] [existingEmailScoreName]).2 :=
  ((C1_diffIndexes_exact [desiredEmailCreatedAt] [existingEmailScoreName]).1
    existingEmailScoreName).mpr ⟨by decide, by decide⟩

/-- C2: the index-key function does NOT preserve field order — it sorts
the per-field fragments (`sort.Strings` in getIndexKey, diff.go lines
88-89) — so an index on (email ASC, createdAt DESC) and one on
(createdAt DESC, email ASC) receive the SAME key, and diffing the one
against the other yields no create and no delete, contradicting both
the specified order-sensitivity and the repository's own test
"Detect field order difference" (diff_test.go), which expects exactly
one create and one delete here. -/
theorem C2_sorted_key_collapses_field_order :
    getIndexKey (convertModelToFirestoreIndex desiredEmailCreatedAt) =
        getIndexKey existingCreatedAtEmail ∧
      DiffIndexes [desiredEmailCreatedAt] [existingCreatedAtEmail] = ([], []) := by
  constructor
  · rfl
  · rfl

/-- C3: `getIndexKey` neither strips the reserved `__name__` field from
non-vector indexes nor treats the collection-group scope the remote
service substitutes for vector indexes as equivalent to the desired
scope: both tolerance scenarios of the repository's own tests
("Firestore-added __name__ does not cause spurious diff" and
"Firestore returns COLLECTION_GROUP for vector index created as
COLLECTION" in diff_test.go, both expecting an empty diff) produce one
create and one delete. -/
theorem C3_no_name_strip_no_scope_alias :
    ((DiffIndexes [desiredEmailScore] [existingEmailScoreName]).1.length = 1 ∧
     (DiffIndexes [desiredEmailScore] [existingEmailScoreName]).2.length = 1) ∧
    ((DiffIndexes [desiredVectorCollection] [existingVectorCollectionGroup]).1.length = 1 ∧
     (DiffIndexes [desiredVectorCollection] [existingVectorCollectionGroup]).2.length = 1) := by
  refine ⟨⟨?_, ?_⟩, ?_, ?_⟩ <;> rfl

/-! Claim theorems for the TTL diff. -/

/-- C4: `DiffTTL` implements the 4-branch decision table with
`CREATING` equivalent to `ACTIVE`: no desired TTL with an observed
policy in ACTIVE/CREATING state yields (true, disable); a desired TTL
with the policy absent or INACTIVE yields (true, enable); a desired TTL
with an ACTIVE/CREATING policy under a different field yields
(true, change); a desired TTL with an ACTIVE/CREATING policy under the
same field yields (false, none); and no desired TTL with the policy
absent or INACTIVE yields no update. -/
theorem C4_diffTTL_decision_table :
    (∀ e : FirestoreTTL, e.state = "ACTIVE" ∨ e.state = "CREATING" →
        DiffTTL none (some e) = (true, "disable")) ∧
    (∀ d : TTL, DiffTTL (some d) none = (true, "enable")) ∧
    (∀ (d : TTL) (e : FirestoreTTL), e.state = "INACTIVE" →
        DiffTTL (some d) (some e) = (true, "enable")) ∧
    (∀ (d : TTL) (e : FirestoreTTL),
        (e.state = "ACTIVE" ∨ e.state = "CREATING") → e.fieldPath ≠ d.field →
        DiffTTL (some d) (some e) = (true, "change")) ∧
    (∀ (d : TTL) (e : FirestoreTTL),
        (e.state = "ACTIVE" ∨ e.state = "CREATING") → e.fieldPath = d.field →
        DiffTTL (some d) (some e) = (false, "")) ∧
    DiffTTL none none = (false, "") ∧
    (∀ e : FirestoreTTL, e.state = "INACTIVE" →
        DiffTTL none (some e) = (false, "")) := by
  refine ⟨?_, ?_, ?_, ?_, ?_, rfl, ?_⟩
  · intro e he
    simp [DiffTTL, he]
  · intro d
    rfl
  · intro d e he
    have h1 : e.state ≠ "ACTIVE" := by simp [he]
    have h2 : e.state ≠ "CREATING" := by simp [he]
    simp [DiffTTL, h1, h2]
  · intro d e he hf
    rcases he with he | he <;> simp [DiffTTL, he, hf]
  · intro d e he hf
    rcases he with he | he <;> simp [DiffTTL, he, hf]
  · intro e he
    have h1 : e.state ≠ "ACTIVE" := by simp [he]
    have h2 : e.state ≠ "CREATING" := by simp [he]
    simp [DiffTTL, h1, h2]

/-- C4 witness: the decision table evaluated at the spec's example
scenario (no TTL desired, observed `expireAt` ACTIVE ⇒ disable). -/
theorem C4_diffTTL_decision_table_witness :
    DiffTTL none (some ⟨"expireAt", "ACTIVE"⟩) = (true, "disable") :=
  C4_diffTTL_decision_table.1 ⟨"expireAt", "ACTIVE"⟩ (Or.inl rfl)

/-- C10: the two results of `DiffTTL` are coupled: the update flag is
true exactly when the action is "disable", "enable" or "change", and a
false flag always comes with the empty action. -/
theorem C10_diffTTL_flag_action_coupled (desired : Option TTL)
    (existing : Option FirestoreTTL) :
    ((DiffTTL desired existing).1 = true ↔
      (DiffTTL desired existing).2 = "disable" ∨
      (DiffTTL desired existing).2 = "enable" ∨
      (DiffTTL desired existing).2 = "change") ∧
    ((DiffTTL desired existing).1 = false →
      (DiffTTL desired existing).2 = "") := by
  rcases desired with _ | d <;> rcases existing with _ | e
  · simp [DiffTTL]
  · by_cases h : e.state = "ACTIVE" ∨ e.state = "CREATING" <;>
      simp [DiffTTL, h]
  · simp [DiffTTL]
  · by_cases h : e.state ≠ "ACTIVE" ∧ e.state ≠ "CREATING"
    · simp [DiffTTL, h]
    · by_cases hf : e.fieldPath ≠ d.field <;> simp [DiffTTL, h, hf]

/-- C10 witness: coupling evaluated at a concrete input where the flag
is true. -/
theorem C10_diffTTL_flag_action_coupled_witness :
    (DiffTTL (some ⟨"expireAt"⟩) none).2 = "disable" ∨
    (DiffTTL (some ⟨"expireAt"⟩) none).2 = "enable" ∨
    (DiffTTL (some ⟨"expireAt"⟩) none).2 = "change" :=
  (C10_diffTTL_flag_action_coupled (some ⟨"expireAt"⟩) none).1.mp (by rfl)

/-- C5: reconciliation is idempotent at the diff level: if the remote
service faithfully applied the first run's operations (deleted what the
diff listed for deletion, created what it listed for creation — possibly
attaching an identity and state, which the key ignores), the second
run's diff is empty, so it issues zero creates and zero deletes. -/
theorem C5_second_diff_empty (desired : List Index)
    (existing : List FirestoreIndex) (assign : FirestoreIndex → FirestoreIndex)
    (hassign : ∀ i, getIndexKey (assign i) = getIndexKey i) :
    DiffIndexes desired
      (applyDiff existing (DiffIndexes desired existing) assign) = ([], []) := by
  set D := DiffIndexes desired existing with hD
  set A := applyDiff existing D assign with hA
  have hF1 : ∀ e ∈ A, getIndexKey e ∈ desired.map desiredKey := by
    intro e he
    rw [hA, applyDiff] at he
    rcases List.mem_append.mp he with he | he
    · obtain ⟨hex, hnd⟩ := List.mem_filter.mp he
      have hnd' : e ∉ D.2 := of_decide_eq_true hnd
      by_contra hk
      exact hnd' ((diff_toDelete_mem desired existing e).mpr ⟨hex, hk⟩)
    · obtain ⟨c, hc, hec⟩ := List.mem_map.mp he
      obtain ⟨⟨d, hd, hcd⟩, _⟩ := diff_toCreate_mem desired existing c hc
      have : getIndexKey e = desiredKey d := by
        rw [← hec, hassign c, hcd, desiredKey]
      rw [this]
      exact List.mem_map.mpr ⟨d, hd, rfl⟩
  have hF2 : ∀ d ∈ desired, desiredKey d ∈ A.map getIndexKey := by
    intro d hd
    by_cases hk : desiredKey d ∈ existing.map getIndexKey
    · obtain ⟨e, he, hek⟩ := List.mem_map.mp hk
      have hnotdel : e ∉ D.2 := by
        intro hdel
        have := ((diff_toDelete_mem desired existing e).mp hdel).2
        rw [hek] at this
        exact this (List.mem_map.mpr ⟨d, hd, rfl⟩)
      refine List.mem_map.mpr ⟨e, ?_, hek⟩
      rw [hA, applyDiff]
      exact List.mem_append.mpr (Or.inl
        (List.mem_filter.mpr ⟨he, decide_eq_true hnotdel⟩))
    · obtain ⟨c, hc, hck⟩ := diff_toCreate_complete desired existing d hd hk
      refine List.mem_map.mpr ⟨assign c, ?_, by rw [hassign c, hck]⟩
      rw [hA, applyDiff]
      exact List.mem_append.mpr (Or.inr (List.mem_map.mpr ⟨c, hc, rfl⟩))
  have h2 : (DiffIndexes desired A).2 = [] := by
    rw [diffIndexes_snd]
    rw [List.filter_eq_nil_iff]
    intro e he
    have hk := hF1 e he
    have := (lookup_buildDesiredMap_isSome desired (getIndexKey e)).mpr hk
    simp only [Bool.not_eq_true, Option.isNone_eq_false_iff]
    exact this
  have h1 : (DiffIndexes desired A).1 = [] := by
    rw [diffIndexes_fst]
    rw [show ((buildDesiredMap desired).filter
        (fun kv => (lookupAssoc (buildExistingMap A) kv.1).isNone)) = [] from ?_]
    · rfl
    · rw [List.filter_eq_nil_iff]
      intro kv hkv
      obtain ⟨hv, hkey⟩ := mem_buildKeyMap _ _ kv hkv
      have hk : kv.1 ∈ A.map getIndexKey := by
        have := hF2 kv.2 hv
        rwa [desiredKey, ← hkey] at this
      have := (lookup_buildExistingMap_isSome A kv.1).mpr hk
      simp only [Bool.not_eq_true, Option.isNone_eq_false_iff]
      exact this
  calc DiffIndexes desired A
      = ((DiffIndexes desired A).1, (DiffIndexes desired A).2) := rfl
    _ = ([], []) := by rw [h1, h2]

/-- C5 witness: one concrete first run (desired index on email, observed
obsolete index) after faithful application leaves an empty second diff. -/
theorem C5_second_diff_empty_witness :
    DiffIndexes [desiredEmailCreatedAt]
      (applyDiff [existingEmailScoreName]
        (DiffIndexes [desiredEmailCreatedAt] [existingEmailScoreName]) id) =
      ([], []) :=
  C5_second_diff_empty [desiredEmailCreatedAt] [existingEmailScoreName] id
    (fun _ => rfl)

/-! The convergence waiter. -/

theorem checkKeys_failed (m : List (String × FirestoreIndex)) :
    ∀ (keys : List String) (b : Bool),
      (∃ k ∈ keys, ∃ idx, lookupAssoc m k = some idx ∧ idx.state = "ERROR") →
      ∃ idx, checkKeys m keys b = .failed idx.name ∧ idx.state = "ERROR" ∧
        ∃ k ∈ keys, lookupAssoc m k = some idx := by
  intro keys
  induction keys with
  | nil => intro b h; simp at h
  | cons k ks ih =>
      intro b h
      cases hlk : lookupAssoc m k with
      | none =>
          obtain ⟨k', hk', idx, hidx, herr⟩ := h
          rcases List.mem_cons.mp hk' with rfl | hk'
          · rw [hlk] at hidx; cases hidx
          · obtain ⟨i, hi1, hi2, ki, hki, hki2⟩ := ih false ⟨k', hk', idx, hidx, herr⟩
            exact ⟨i, by simp [checkKeys, hlk, hi1], hi2, ki,
              List.mem_cons_of_mem _ hki, hki2⟩
      | some idx0 =>
          by_cases hready : idx0.state = "READY"
          · obtain ⟨k', hk', idx, hidx, herr⟩ := h
            have hk'' : k' ∈ ks := by
              rcases List.mem_cons.mp hk' with rfl | hk'
              · rw [hlk] at hidx
                cases hidx
                rw [hready] at herr
                exact absurd herr (by decide)
              · exact hk'
            obtain ⟨i, hi1, hi2, ki, hki, hki2⟩ := ih b ⟨k', hk'', idx, hidx, herr⟩
            exact ⟨i, by simp [checkKeys, hlk, hready, hi1], hi2, ki,
              List.mem_cons_of_mem _ hki, hki2⟩
          · by_cases herr0 : idx0.state = "ERROR"
            · exact ⟨idx0, by simp [checkKeys, hlk, hready, herr0], herr0,
                k, List.mem_cons_self _ _, hlk⟩
            · obtain ⟨k', hk', idx, hidx, herr⟩ := h
              have hk'' : k' ∈ ks := by
                rcases List.mem_cons.mp hk' with rfl | hk'
                · rw [hlk] at hidx
                  cases hidx
                  exact absurd herr herr0
                · exact hk'
              obtain ⟨i, hi1, hi2, ki, hki, hki2⟩ := ih false ⟨k', hk'', idx, hidx, herr⟩
              exact ⟨i, by simp [checkKeys, hlk, hready, herr0, hi1], hi2, ki,
                List.mem_cons_of_mem _ hki, hki2⟩

/-- C6 counterexample: an observed index matching the desired key in
NEEDS_REPAIR state does NOT terminate the wait with a failure — the
round reports not-ready, the loop keeps polling (a later round is
consumed) and even converges when the index recovers; the source's
`waitForIndexesReady` (sync.go lines 466-475) treats only ERROR as
terminal, while NEEDS_REPAIR falls into the default not-ready branch. -/
theorem C6_needs_repair_keeps_polling :
    checkIndexesOnce [desiredEmailFirestore] [existingEmailNeedsRepair] =
        .waiting ∧
      waitRounds [desiredEmailFirestore]
        [[existingEmailNeedsRepair], [existingEmailReady]] = .ok ∧
      (waitRoundsCalls "users" [desiredEmailFirestore]
        [[existingEmailNeedsRepair], [existingEmailReady]]).1.length = 2 := by
  refine ⟨?_, ?_, ?_⟩ <;> rfl

/-- C6 (amended): an observed index matching a desired key that reaches
the ERROR state makes the wait terminate immediately with a reported
failure referencing that index, without any further polling rounds; an
index in NEEDS_REPAIR state is treated as not yet ready and polling
continues. -/
theorem C6_error_terminates_immediately (desired obs : List FirestoreIndex)
    (rest : List (List FirestoreIndex)) (collectionName : String)
    (h : ∃ k ∈ dedupKeys (desired.map getIndexKey), ∃ idx,
        lookupAssoc (buildExistingMap obs) k = some idx ∧ idx.state = "ERROR") :
    ∃ idx, idx.state = "ERROR" ∧
      (∃ k ∈ dedupKeys (desired.map getIndexKey),
        lookupAssoc (buildExistingMap obs) k = some idx) ∧
      waitRounds desired (obs :: rest) = .err idx.name ∧
      (waitRoundsCalls collectionName desired (obs :: rest)).1 =
        [.listIndexes collectionName] := by
  obtain ⟨idx, hfail, herr, k, hk, hlk⟩ :=
    checkKeys_failed (buildExistingMap obs)
      (dedupKeys (desired.map getIndexKey)) true h
  have honce : checkIndexesOnce desired obs = .failed idx.name := hfail
  exact ⟨idx, herr, ⟨k, hk, hlk⟩,
    by simp [waitRounds, honce], by simp [waitRoundsCalls, honce]⟩

/-- C6 witness: the amended property applied to a concrete ERROR
observation. -/
theorem C6_error_terminates_immediately_witness :
    ∃ idx, idx.state = "ERROR" ∧
      (∃ k ∈ dedupKeys ([desiredEmailFirestore].map getIndexKey),
        lookupAssoc (buildExistingMap [existingEmailError]) k = some idx) ∧
      waitRounds [desiredEmailFirestore]
        ([existingEmailError] :: [[existingEmailReady]]) = .err idx.name ∧
      (waitRoundsCalls "users" [desiredEmailFirestore]
        ([existingEmailError] :: [[existingEmailReady]])).1 =
        [.listIndexes "users"] :=
  C6_error_terminates_immediately [desiredEmailFirestore] [existingEmailError]
    [[existingEmailReady]] "users"
    ⟨getIndexKey desiredEmailFirestore, by decide, existingEmailError,
      by decide, by decide⟩

/-! Dry-run frame property of the per-collection sync. -/

theorem validate_preserves_name_ttl (col c : Collection)
    (h : col.validate = .ok c) : c.name = col.name ∧ c.ttl = col.ttl := by
  by_cases hn : col.name = ""
  · simp [Collection.validate, hn] at h
  · cases hil : validateIndexList col.indexes with
    | error e => simp [Collection.validate, hn, hil] at h
    | ok is =>
        cases ht : col.ttl with
        | none =>
            simp [Collection.validate, hn, hil, ht] at h
            subst h
            exact ⟨rfl, rfl⟩
        | some t =>
            by_cases hf : t.field = ""
            · simp [Collection.validate, hn, hil, ht, TTL.validate, hf] at h
            · simp [Collection.validate, hn, hil, ht, TTL.validate, hf] at h
              subst h
              exact ⟨rfl, rfl⟩

theorem waitForIndexesReadyCalls_dryRun (async : Bool) (collectionName : String)
    (desired : List FirestoreIndex) (rounds : List (List FirestoreIndex)) :
    waitForIndexesReadyCalls async true collectionName desired rounds =
      ([], .ok) := by
  simp [waitForIndexesReadyCalls]

theorem syncIndexes_dryRun (async : Bool) (client : ClientModel)
    (c : Collection) :
    syncIndexes true async client c =
      ([Call.listIndexes c.name],
        DiffIndexes c.indexes client.listResult, .ok) := by
  simp [syncIndexes, waitForIndexesReadyCalls_dryRun]

theorem syncTTL_dryRun (async : Bool) (client : ClientModel) (c : Collection) :
    syncTTL true async client c =
      match c.ttl with
      | none => []
      | some t => [Call.getTTLPolicy c.name t.field] := by
  cases ht : c.ttl with
  | none => simp [syncTTL, ht]
  | some t =>
      by_cases h : (DiffTTL (some t) client.ttlResult).1 <;>
        simp [syncTTL, ht, h]

theorem syncCollection_trace_dryRun (async : Bool) (client : ClientModel)
    (col c : Collection) (h : col.validate = .ok c) :
    (syncCollection true async client col).trace =
      Call.listIndexes c.name ::
        (match c.ttl with
         | none => []
         | some t => [Call.getTTLPolicy c.name t.field]) := by
  unfold syncCollection
  rw [h]
  simp only [syncIndexes_dryRun, syncTTL_dryRun]
  cases c.ttl <;> simp [ensureCollectionExists]

theorem syncCollection_trace_invalid (dryRun async : Bool)
    (client : ClientModel) (col : Collection) (e : String)
    (h : col.validate = .error e) :
    (syncCollection dryRun async client col).trace = [] := by
  unfold syncCollection
  rw [h]

theorem syncCollection_diff_eq (dryRun async : Bool) (client : ClientModel)
    (col : Collection) :
    (syncCollection dryRun async client col).diff =
      match col.validate with
      | .error _ => none
      | .ok c => some (DiffIndexes c.indexes client.listResult) := by
  unfold syncCollection
  cases col.validate with
  | error e => rfl
  | ok c =>
      simp only []
      cases hidx : (syncIndexes dryRun async client c).2.2 <;> simp [hidx] <;> rfl

/-- C7: in dry-run mode the per-collection sync performs no mutating
remote call and no existence check (no CreateIndex, DeleteIndex,
EnableTTLPolicy, DisableTTLPolicy, CreateCollection, or
CollectionExists), its computed index diff is identical to real mode's,
and the read-only calls still occur: ListIndexes, and GetTTLPolicy when
a TTL is desired. -/
theorem C7_dryRun_frame (async : Bool) (client : ClientModel)
    (col : Collection) :
    (∀ call ∈ (syncCollection true async client col).trace,
        call.isMutatingOrExists = false) ∧
    (syncCollection true async client col).diff =
      (syncCollection false async client col).diff ∧
    (∀ c, col.validate = .ok c →
        Call.listIndexes col.name ∈
          (syncCollection true async client col).trace ∧
        (∀ t, col.ttl = some t →
          Call.getTTLPolicy col.name t.field ∈
            (syncCollection true async client col).trace)) := by
  refine ⟨?_, ?_, ?_⟩
  · intro call hc
    cases hv : col.validate with
    | error e =>
        rw [syncCollection_trace_invalid true async client col e hv] at hc
        cases hc
    | ok c =>
        rw [syncCollection_trace_dryRun async client col c hv] at hc
        cases hct : c.ttl with
        | none =>
            rw [hct] at hc
            simp only [List.mem_singleton] at hc
            subst hc; rfl
        | some t =>
            rw [hct] at hc
            rcases List.mem_cons.mp hc with rfl | hc
            · rfl
            · simp only [List.mem_singleton] at hc
              subst hc; rfl
  · rw [syncCollection_diff_eq, syncCollection_diff_eq]
  · intro c hv
    obtain ⟨hname, httl⟩ := validate_preserves_name_ttl col c hv
    rw [syncCollection_trace_dryRun async client col c hv, ← hname]
    refine ⟨List.mem_cons_self _ _, ?_⟩
    intro t ht
    have hct : c.ttl = some t := by rw [httl, ht]
    rw [hct]
    exact List.mem_cons_of_mem _ (List.mem_singleton.mpr rfl)

/-- C7 witness: on a sample collection desiring one index and a TTL,
against a client with an active TTL, the dry-run trace contains the two
read-only calls. -/
theorem C7_dryRun_frame_witness :
    Call.listIndexes "users" ∈
      (syncCollection true false sampleClient sampleCollection).trace ∧
    Call.getTTLPolicy "users" "expireAt" ∈
      (syncCollection true false sampleClient sampleCollection).trace := by
  have h := (C7_dryRun_frame false sampleClient sampleCollection).2.2
    sampleCollection (by rfl)
  exact ⟨h.1, h.2 ⟨"expireAt"⟩ rfl⟩

/-! Importer TTL resolution. -/

/-- C8: contrary to the claim, only a failure of the TTL-field lookup
(`FindTTLField`) is swallowed; a failure of the subsequent
`GetTTLPolicy` fetch is wrapped and propagates, failing that
collection's import (import.go lines 170-175, wrapped again by
`Import.Execute` lines 63-66) — even though the repository's own test
comments "Import should succeed even if TTL policy fails"
(import_test.go). -/
theorem C8_getTTLPolicy_error_fails_import :
    importTTL ttlClientGetFails =
        .error "failed to get TTL policy: permission denied" ∧
      importCollectionTTL ttlClientGetFails =
        .error "failed to import TTL: failed to get TTL policy: permission denied" ∧
      importTTL ttlClientFindFails = .ok none := by
  refine ⟨?_, ?_, ?_⟩ <;> rfl

/-! Validation of index constraints. -/

theorem nameFold_const (fields : List IndexField)
    (h : ∀ f ∈ fields, f.name ≠ "__name__") :
    ∀ (n : Nat) (init : Int),
      (List.enumFrom n fields).foldl
        (fun acc p => if p.2.name = "__name__" then (p.1 : Int) else acc) init
      = init := by
  induction fields with
  | nil => intro n init; rfl
  | cons f fs ih =>
      intro n init
      rw [List.enumFrom_cons, List.foldl_cons]
      have hf : f.name ≠ "__name__" := h f (List.mem_cons_self _ _)
      rw [if_neg hf]
      exact ih (fun g hg => h g (List.mem_cons_of_mem _ hg)) (n + 1) init

theorem nameFold_last_match (fields : List IndexField)
    (h : ∃ f ∈ fields, f.name = "__name__") :
    ∀ (n : Nat) (init : Int), ∃ (j : Nat) (f' : IndexField),
      fields[j]? = some f' ∧ f'.name = "__name__" ∧
      (List.enumFrom n fields).foldl
        (fun acc p => if p.2.name = "__name__" then (p.1 : Int) else acc) init
      = ((n + j : Nat) : Int) := by
  induction fields with
  | nil => simp at h
  | cons f fs ih =>
      intro n init
      rw [List.enumFrom_cons, List.foldl_cons]
      by_cases hfs : ∃ g ∈ fs, g.name = "__name__"
      · obtain ⟨j, f', hj, hjn, hres⟩ := ih hfs (n + 1)
          (if f.name = "__name__" then (n : Int) else init)
        refine ⟨j + 1, f', by simpa using hj, hjn, ?_⟩
        rw [hres]
        congr 1
        omega
      · have hf : f.name = "__name__" := by
          obtain ⟨g, hg, hgn⟩ := h
          rcases List.mem_cons.mp hg with rfl | hg
          · exact hgn
          · exact absurd ⟨g, hg, hgn⟩ hfs
        have hall : ∀ g ∈ fs, g.name ≠ "__name__" := by
          intro g hg hgn
          exact hfs ⟨g, hg, hgn⟩
        refine ⟨0, f, by simp, hf, ?_⟩
        rw [if_pos hf, nameFold_const fs hall (n + 1) (n : Int)]
        simp

theorem vectorFold_const (fields : List IndexField)
    (h : ∀ f ∈ fields, f.vectorConfig = none) :
    ∀ (n : Nat) (acc : List Nat),
      (List.enumFrom n fields).foldl
        (fun acc p => if p.2.vectorConfig.isSome then acc ++ [p.1] else acc) acc
      = acc := by
  induction fields with
  | nil => intro n acc; rfl
  | cons f fs ih =>
      intro n acc
      rw [List.enumFrom_cons, List.foldl_cons]
      have hf : f.vectorConfig = none := h f (List.mem_cons_self _ _)
      rw [if_neg (by simp [hf])]
      exact ih (fun g hg => h g (List.mem_cons_of_mem _ hg)) (n + 1) acc

theorem vectorFold_ne_nil_of_ne_nil (fields : List IndexField) :
    ∀ (n : Nat) (acc : List Nat), acc ≠ [] →
      (List.enumFrom n fields).foldl
        (fun acc p => if p.2.vectorConfig.isSome then acc ++ [p.1] else acc) acc
      ≠ [] := by
  induction fields with
  | nil => intro n acc h; exact h
  | cons f fs ih =>
      intro n acc h
      rw [List.enumFrom_cons, List.foldl_cons]
      by_cases hv : f.vectorConfig.isSome
      · rw [if_pos hv]
        exact ih (n + 1) (acc ++ [n]) (by simp)
      · rw [if_neg hv]
        exact ih (n + 1) acc h

theorem vectorFold_ne_nil (fields : List IndexField)
    (h : ∃ f ∈ fields, f.vectorConfig.isSome) :
    ∀ (n : Nat) (acc : List Nat),
      (List.enumFrom n fields).foldl
        (fun acc p => if p.2.vectorConfig.isSome then acc ++ [p.1] else acc) acc
      ≠ [] := by
  induction fields with
  | nil => simp at h
  | cons f fs ih =>
      intro n acc
      rw [List.enumFrom_cons, List.foldl_cons]
      by_cases hv : f.vectorConfig.isSome
      · rw [if_pos hv]
        exact vectorFold_ne_nil_of_ne_nil fs (n + 1) (acc ++ [n]) (by simp)
      · rw [if_neg hv]
        have hfs : ∃ g ∈ fs, g.vectorConfig.isSome := by
          obtain ⟨g, hg, hgv⟩ := h
          rcases List.mem_cons.mp hg with rfl | hg
          · exact absurd hgv hv
          · exact ⟨g, hg, hgv⟩
        exact ih hfs (n + 1) acc

theorem nameFieldIndexOf_spec (fields : List IndexField)
    (h : ∃ f ∈ fields, f.name = "__name__") :
    ∃ (j : Nat) (f' : IndexField), fields[j]? = some f' ∧
      f'.name = "__name__" ∧ nameFieldIndexOf fields = (j : Int) := by
  obtain ⟨j, f', hj, hjn, hres⟩ := nameFold_last_match fields h 0 (-1)
  exact ⟨j, f', hj, hjn, by simpa [nameFieldIndexOf, List.enum] using hres⟩

theorem vectorFieldIndicesOf_nil (fields : List IndexField)
    (h : ∀ f ∈ fields, f.vectorConfig = none) :
    vectorFieldIndicesOf fields = [] := by
  simpa [vectorFieldIndicesOf, List.enum] using vectorFold_const fields h 0 []

theorem vectorFieldIndicesOf_ne_nil (fields : List IndexField)
    (h : ∃ f ∈ fields, f.vectorConfig.isSome) :
    vectorFieldIndicesOf fields ≠ [] := by
  simpa [vectorFieldIndicesOf, List.enum] using vectorFold_ne_nil fields h 0 []

theorem violation_of_name_with_vector (fields : List IndexField)
    (ha : ∃ f ∈ fields, f.name = "__name__")
    (hv : ∃ f ∈ fields, f.vectorConfig.isSome) :
    ∃ e, indexConstraintViolation fields = some e := by
  obtain ⟨j, f', hj, hjn, hidx⟩ := nameFieldIndexOf_spec fields ha
  have h0 : nameFieldIndexOf fields ≥ 0 := by
    rw [hidx]; exact Int.ofNat_nonneg j
  have hne : ¬ (vectorFieldIndicesOf fields).isEmpty := by
    have := vectorFieldIndicesOf_ne_nil fields hv
    simpa [List.isEmpty_iff] using this
  refine ⟨"vector index must not include __name__ field (Firestore manages it internally)", ?_⟩
  simp only [indexConstraintViolation]
  rw [if_pos ⟨h0, hne⟩]

theorem violation_of_name_not_last (fields : List IndexField)
    (ha : ∃ f ∈ fields, f.name = "__name__")
    (hnv : ∀ f ∈ fields, f.vectorConfig = none)
    (hlast : fields.getLast?.map (fun f => f.name) ≠ some "__name__") :
    ∃ e, indexConstraintViolation fields = some e := by
  obtain ⟨j, f', hj, hjn, hidx⟩ := nameFieldIndexOf_spec fields ha
  have h0 : nameFieldIndexOf fields ≥ 0 := by
    rw [hidx]; exact Int.ofNat_nonneg j
  have hempty : (vectorFieldIndicesOf fields).isEmpty := by
    rw [vectorFieldIndicesOf_nil fields hnv]; rfl
  have hjlt : j < fields.length := (List.getElem?_eq_some_iff.mp hj).1
  have hne : nameFieldIndexOf fields ≠ (fields.length : Int) - 1 := by
    rw [hidx]
    intro heq
    have hj' : j = fields.length - 1 := by omega
    have : fields.getLast? = some f' := by
      rw [List.getLast?_eq_getElem?, ← hj']
      exact hj
    apply hlast
    rw [this]
    simp [hjn]
  have hcond1 : ¬ (nameFieldIndexOf fields ≥ 0 ∧
      ¬ (vectorFieldIndicesOf fields).isEmpty) := by
    intro hc
    exact hc.2 hempty
  refine ⟨"__name__ field must be last in non-vector index", ?_⟩
  simp only [indexConstraintViolation]
  rw [if_neg hcond1, if_pos ⟨h0, hempty, hne⟩]

theorem validateIndexConstraints_error_of_violation (index : Index)
    (n : Int) (h : ∃ e, indexConstraintViolation index.fields = some e) :
    ∃ e, validateIndexConstraints index n = .error e := by
  obtain ⟨e, he⟩ := h
  refine ⟨"index[" ++ toString n ++ "]: " ++ e, ?_⟩
  simp only [validateIndexConstraints]
  rw [he]

theorem validateIndexesLoop_error (is : List Index) :
    ∀ n : Int, (∃ i ∈ is, (indexConstraintViolation i.fields).isSome) →
      ∃ e, validateIndexesLoop is n = .error e := by
  induction is with
  | nil => intro n h; simp at h
  | cons i is' ih =>
      intro n h
      cases hv : indexConstraintViolation i.fields with
      | some e =>
          refine ⟨"index[" ++ toString n ++ "]: " ++ e, ?_⟩
          have hvc : validateIndexConstraints i n =
              .error ("index[" ++ toString n ++ "]: " ++ e) := by
            simp only [validateIndexConstraints]
            rw [hv]
          simp only [validateIndexesLoop]
          rw [hvc]
      | none =>
          have h' : ∃ i' ∈ is', (indexConstraintViolation i'.fields).isSome := by
            obtain ⟨i', hi', hv'⟩ := h
            rcases List.mem_cons.mp hi' with rfl | hi'
            · rw [hv] at hv'; cases hv'
            · exact ⟨i', hi', hv'⟩
          obtain ⟨e, he⟩ := ih (n + 1) h'
          have hvc : validateIndexConstraints i n = .ok () := by
            simp only [validateIndexConstraints]
            rw [hv]
          refine ⟨e, ?_⟩
          simp only [validateIndexesLoop]
          rw [hvc]
          exact he

theorem validateFirestoreConstraints_error (col : Collection)
    (h : ∃ i ∈ col.indexes, (indexConstraintViolation i.fields).isSome) :
    ∃ e, validateFirestoreConstraints col = .error e := by
  obtain ⟨e, he⟩ := validateIndexesLoop_error col.indexes 0 h
  refine ⟨e, ?_⟩
  simp only [validateFirestoreConstraints]
  rw [he]

/-- C9: validation rejects every index in which the reserved
document-identity field `__name__` co-occurs with a vector field, and
every non-vector index in which `__name__` is present but is not the
last field; through `validateFirestoreConstraints` such a configuration
error is reported for the collection containing the index, never passed
as valid. -/
theorem C9_validate_rejects_name_misuse (idx : Index) (n : Int)
    (col : Collection) :
    ((∃ f ∈ idx.fields, f.name = "__name__") →
      (∃ f ∈ idx.fields, f.vectorConfig.isSome) →
      ∃ e, validateIndexConstraints idx n = .error e) ∧
    ((∃ f ∈ idx.fields, f.name = "__name__") →
      (∀ f ∈ idx.fields, f.vectorConfig = none) →
      idx.fields.getLast?.map (fun f => f.name) ≠ some "__name__" →
      ∃ e, validateIndexConstraints idx n = .error e) ∧
    (idx ∈ col.indexes →
      (∃ f ∈ idx.fields, f.name = "__name__") →
      ((∃ f ∈ idx.fields, f.vectorConfig.isSome) ∨
        ((∀ f ∈ idx.fields, f.vectorConfig = none) ∧
          idx.fields.getLast?.map (fun f => f.name) ≠ some "__name__")) →
      ∃ e, validateFirestoreConstraints col = .error e) := by
  refine ⟨?_, ?_, ?_⟩
  · intro ha hv
    exact validateIndexConstraints_error_of_violation idx n
      (violation_of_name_with_vector idx.fields ha hv)
  · intro ha hnv hlast
    exact validateIndexConstraints_error_of_violation idx n
      (violation_of_name_not_last idx.fields ha hnv hlast)
  · intro hmem ha hcase
    have hviol : ∃ e, indexConstraintViolation idx.fields = some e := by
      rcases hcase with hv | ⟨hnv, hlast⟩
      · exact violation_of_name_with_vector idx.fields ha hv
      · exact violation_of_name_not_last idx.fields ha hnv hlast
    obtain ⟨e, he⟩ := hviol
    exact validateFirestoreConstraints_error col ⟨idx, hmem, by rw [he]; rfl⟩

/-- C9 witness: both rejection cases evaluated: `__name__` together with
a vector field, and `__name__` not last in a non-vector index, reported
at the collection level as well. -/
theorem C9_validate_rejects_name_misuse_witness :
    (∃ e, validateIndexConstraints indexNameWithVector 0 = .error e) ∧
    (∃ e, validateIndexConstraints indexNameNotLast 0 = .error e) ∧
    (∃ e, validateFirestoreConstraints
      { name := "users", indexes := [indexNameNotLast], ttl := none } =
        .error e) := by
  refine ⟨?_, ?_, ?_⟩
  · exact (C9_validate_rejects_name_misuse indexNameWithVector 0
      ⟨"users", [], none⟩).1
      ⟨⟨"__name__", "ASCENDING", "", none⟩, by decide, by decide⟩
      ⟨⟨"embedding", "", "", some ⟨768⟩⟩, by decide, by decide⟩
  · exact (C9_validate_rejects_name_misuse indexNameNotLast 0
      ⟨"users", [], none⟩).2.1
      ⟨⟨"__name__", "ASCENDING", "", none⟩, by decide, by decide⟩
      (by decide) (by decide)
  · exact (C9_validate_rejects_name_misuse indexNameNotLast 0
      ⟨"users", [indexNameNotLast], none⟩).2.2 (by decide)
      ⟨⟨"__name__", "ASCENDING", "", none⟩, by decide, by decide⟩
      (Or.inr ⟨by decide, by decide⟩)

end Fireconf
